import Mathlib

/-!
Verification of the hybrid retrieval-and-fusion engine of the event
classification repository: the hierarchical keyword index
(`source/index/keyword_index.py`), the dense vector index
(`source/index/vector_index.py`), the fuzzy title matcher
(`source/utils/string_matching.py`) and the score-fusion pipeline
(`source/pipeline.py`), shallowly embedded over rationals and lists.
Python dicts preserve insertion order and have unique keys, so a nested
mapping is embedded as an association list; Python sets of keywords are
embedded as `Finset String`; float scores are embedded as exact rationals.
-/

namespace ABB

/-! ## Keyword inverted index (`KeywordSearchIndex`, source/index/keyword_index.py)

`KeywordSearchIndex.index` is the nested mapping
`project -> activity -> set of keywords`. -/

abbrev KWIndex := List (String × List (String × Finset String))

/-- The `keyword_counts` pass of `remove_frequent_keywords_from_index`:
the number of `(project, activity)` cells whose keyword set contains `w`
(each cell's keywords form a set, so a cell contributes at most once). -/
def countCells (idx : KWIndex) (w : String) : Nat :=
  (idx.map (fun e => (e.2.filter (fun c => decide (w ∈ c.2))).length)).sum

/-- `KeywordSearchIndex.remove_frequent_keywords_from_index(threshold)`:
first count, across the whole index, how many cells contain each keyword,
then rewrite every cell, keeping only the keywords whose global count is
`<= threshold`. The counts are computed on the index as it was before any
cell is rewritten. -/
def remove_frequent_keywords_from_index (idx : KWIndex) (threshold : Nat) : KWIndex :=
  idx.map (fun e =>
    (e.1, e.2.map (fun c => (c.1, c.2.filter (fun w => countCells idx w ≤ threshold)))))

/-- Dictionary lookup `self.index[project][activity]` (read-only view:
`None` when either key is absent). -/
def getCell (idx : KWIndex) (p a : String) : Option (Finset String) :=
  (idx.find? (fun e => decide (e.1 = p))).bind
    (fun e => (e.2.find? (fun c => decide (c.1 = a))).map (fun c => c.2))

/-- `w` is a keyword of cell `(p, a)` of the index. -/
def cellHasKeyword (idx : KWIndex) (p a w : String) : Prop :=
  ∃ s, getCell idx p a = some s ∧ w ∈ s

/-! ## Dense vector index (`FaissIndex`, source/index/vector_index.py)

`FaissIndex.index` is a `faiss.IndexFlatIP` similarity store; its contents
are embedded as the list of stored vectors (exact inner-product search over
rationals), `index_items` is the parallel label list. -/

structure FaissIndex where
  index : List (List ℚ)
  index_items : List String
deriving DecidableEq

/-- Inner product of two vectors (trailing coordinates of the longer vector
are ignored, as all stored vectors share the index dimension). -/
def innerProd (v w : List ℚ) : ℚ := ((v.zip w).map (fun c => c.1 * c.2)).sum

/-- Ranking order of stored item `i` before item `j` for a fixed score
function: strictly better score first, ties by lower item id (the
deterministic order of exact flat inner-product search). -/
abbrev rankRel (score : Nat → ℚ) (i j : Nat) : Prop :=
  score j < score i ∨ (score i = score j ∧ i ≤ j)

instance (score : Nat → ℚ) : IsTotal Nat (rankRel score) := ⟨by
  intro i j
  rcases lt_trichotomy (score i) (score j) with h | h | h
  · exact Or.inr (Or.inl h)
  · rcases Nat.le_total i j with hij | hij
    · exact Or.inl (Or.inr ⟨h, hij⟩)
    · exact Or.inr (Or.inr ⟨h.symm, hij⟩)
  · exact Or.inl (Or.inl h)⟩

instance (score : Nat → ℚ) : IsTrans Nat (rankRel score) := ⟨by
  intro i j k hij hjk
  rcases hij with h1 | ⟨e1, l1⟩
  · rcases hjk with h2 | ⟨e2, l2⟩
    · exact Or.inl (lt_trans h2 h1)
    · exact Or.inl (e2 ▸ h1)
  · rcases hjk with h2 | ⟨e2, l2⟩
    · exact Or.inl (by rw [e1]; exact h2)
    · exact Or.inr ⟨e1.trans e2, le_trans l1 l2⟩⟩

/-- Modelled: `faiss.IndexFlatIP.search` (exact inner-product search) with a
single query vector and `k` at most the number of stored vectors: the `k`
best-scoring stored item ids, in ranking order, with their scores. -/
def faissSearchIP (xb : List (List ℚ)) (query : List ℚ) (k : Nat) : List ℚ × List Nat :=
  let score := fun i => innerProd (xb.getD i []) query
  let ranked := (List.insertionSort (rankRel score) (List.range xb.length)).take k
  (ranked.map score, ranked)

/-- `FaissIndex.set_embeddings`: `index.reset()` then `index.add(embeddings)`
and `self.index_items = items`. The source never compares
`len(embeddings)` with `len(items)`. -/
def FaissIndex.set_embeddings (_self : FaissIndex) (embeddings : List (List ℚ))
    (items : List String) : FaissIndex :=
  { index := embeddings, index_items := items }

/-- `FaissIndex.search_by_vector_query(query, k)`: when `k is None`, `k`
becomes `len(self.index_items)`; the faiss store is searched and the item
ids are translated to labels through `self.index_items`. -/
def FaissIndex.search_by_vector_query (self : FaissIndex) (query : List ℚ)
    (k : Option Nat) : List ℚ × List Nat × List String :=
  let kk := match k with | none => self.index_items.length | some m => m
  let dr := faissSearchIP self.index query kk
  (dr.1, dr.2, dr.2.map (fun i => self.index_items.getD i ""))

/-- A call of `search_by_vector_query` with the `k` argument omitted: the
Python signature is `k: Optional[int] = 5`, so an omitted `k` means `k = 5`. -/
def FaissIndex.search_by_vector_query_default (self : FaissIndex) (query : List ℚ) :
    List ℚ × List Nat × List String :=
  self.search_by_vector_query query (some 5)

/-- `FaissIndex.from_file`: reads the persisted similarity store and the
sidecar label list and installs them as-is; the source performs no
comparison of the store's item count with the label count. -/
def FaissIndex.from_file (stored : List (List ℚ)) (sidecar : List String) : FaissIndex :=
  { index := stored, index_items := sidecar }

/-- A six-item vector index used to exercise the default `k`. -/
def idxC6 : FaissIndex :=
  ⟨[[1], [2], [3], [4], [5], [6]], ["i1", "i2", "i3", "i4", "i5", "i6"]⟩

/-- A two-item vector index with matching vector and label counts. -/
def idxW6 : FaissIndex := ⟨[[(1 : ℚ)], [(2 : ℚ)]], ["a", "b"]⟩

/-! ## Fuzzy title matcher (source/utils/string_matching.py)

String preprocessing, the TF-IDF vector space and the rapidfuzz `WRatio`
scorer are external collaborators (regexes, scikit-learn, rapidfuzz); they
enter the embedding as parameters: `pre` preprocesses one string, `nn`
gives the TF-IDF nearest-neighbour candidate pool of one preprocessed
query, `scorer` is the 0-100 fuzzy similarity. -/

/-- The error scikit-learn raises when the TF-IDF vectorizer or the
nearest-neighbour index is fitted on an empty catalog. -/
def sklearnEmptyMsg : String :=
  "ValueError: cannot fit the vectorizer or the neighbor index on 0 samples"

/-- Python's division-by-zero error. -/
def divMsg : String := "ZeroDivisionError: division by zero"

/-- The pandas error of `Series.idxmax` on an empty column. -/
def idxmaxMsg : String := "ValueError: attempt to get argmax of an empty sequence"

/-- Modelled: the source builds a `TfidfVectorizer` fitted on the clean
catalog and a `NearestNeighbors` index over the fitted vectors;
scikit-learn raises a `ValueError` when the catalog holds zero samples,
and succeeds otherwise. -/
def init_matching_components (clean : List String) (_n_neighbors : Nat) :
    Except String Unit :=
  if clean.isEmpty then .error sklearnEmptyMsg else .ok ()

/-- `tfidf_nn(messy, clean, n_neighbors)`: fit the matching components on
the clean side with `min(len(clean), n_neighbors)` neighbours, then give
each messy row its TF-IDF nearest-neighbour candidate pool. -/
def tfidf_nn (nn : String → List String) (messy clean : List String)
    (n_neighbors : Nat) : Except String (List (List String)) :=
  match init_matching_components clean (min clean.length n_neighbors) with
  | .error m => .error m
  | .ok _ => .ok (messy.map nn)

/-- `find_matches_fuzzy(row, match_candidates, limit)`: rapidfuzz
`process.extract` keeps the top `limit` candidates by the fuzzy score,
best first; each match is reported as `(row, candidate, score)`. -/
def find_matches_fuzzy (scorer : String → String → ℚ) (row : String)
    (match_candidates : List String) (limit : Nat) : List (String × String × ℚ) :=
  ((List.insertionSort (fun c d => scorer row d ≤ scorer row c) match_candidates).take
    limit).map (fun c => (row, c, scorer row c))

/-- The `original_to_preprocessed` maps of `fuzzy_nn_match`: a Python dict
built from `zip(preprocessed, originals)`, so a later pair overrides an
earlier one with the same key. A string outside the map is left unchanged
(in the source every mapped string comes from the corresponding catalog). -/
def mapBack (pairs : List (String × String)) (s : String) : String :=
  ((pairs.reverse.find? (fun c => decide (c.1 = s))).map Prod.snd).getD s

/-- `fuzzy_nn_match(messy, clean, n_neighbors, limit)`: preprocess both
sides, TF-IDF-select a candidate pool per messy row, fuzzy-score each pool
keeping the top `limit` per row, scale the scores from 0-100 to 0-1, and
map both strings of every match back to their original spellings. -/
def fuzzy_nn_match (pre : String → String) (nn : String → List String)
    (scorer : String → String → ℚ) (messy clean : List String)
    (n_neighbors limit : Nat) : Except String (List (String × String × ℚ)) :=
  match tfidf_nn nn (messy.map pre) (clean.map pre) n_neighbors with
  | .error m => .error m
  | .ok nearest =>
    .ok (((((messy.map pre).zip nearest).map
        (fun c => find_matches_fuzzy scorer c.1 c.2 limit)).flatten).map (fun r =>
      (mapBack ((messy.map pre).zip messy) r.1,
       mapBack ((clean.map pre).zip clean) r.2.1, r.2.2 / 100)))

/-! ## Keyword search (`KeywordSearchIndex.search`) -/

/-- Python `round(x, 4)`: round to four decimal places, ties to the even
last digit (floats embedded as exact rationals). -/
def pyRound4 (x : ℚ) : ℚ :=
  let y := x * 10000
  let f := ⌊y⌋
  let r := y - (f : ℚ)
  let n : ℤ :=
    if r < 1/2 then f else if 1/2 < r then f + 1 else if f % 2 = 0 then f else f + 1
  (n : ℚ) / 10000

/-- The per-query results table `results[project][activity]` of `search`, a
nested defaultdict flattened in insertion order. -/
abbrev Results := List ((String × String) × ℚ)

/-- Dictionary read without insertion. -/
def dictGet (res : Results) (key : String × String) : Option ℚ :=
  (res.find? (fun c => decide (c.1 = key))).map Prod.snd

/-- `results[p][a] = v`: update in place when the key exists, append
otherwise (Python dict insertion-order semantics). -/
def dictSet (res : Results) (key : String × String) (v : ℚ) : Results :=
  if (res.find? (fun c => decide (c.1 = key))).isSome then
    res.map (fun c => if c.1 = key then (c.1, v) else c)
  else res ++ [(key, v)]

/-- The activity keys of `self.index[project]`. -/
def projectActivities (idx : KWIndex) (p : String) : List String :=
  ((idx.find? (fun e => decide (e.1 = p))).map (fun e => e.2.map Prod.fst)).getD []

/-- The title branch of `KeywordSearchIndex.search`: for a non-empty title,
fuzzy-match it against the project names (`n_neighbors=5, limit=1`), keep
matches with confidence at least 0.95; if any remain, sort them by
confidence descending and add the top confidence (`.iloc[0]` of the sorted
table) to every activity of every matched project. -/
def titlePrior (pre : String → String) (nn : String → List String)
    (scorer : String → String → ℚ) (idx : KWIndex) (title : Option String) :
    Except String Results :=
  match title with
  | none => .ok []
  | some t =>
    if t = "" then .ok []
    else
      match fuzzy_nn_match pre nn scorer [t] (idx.map Prod.fst) 5 1 with
      | .error m => .error m
      | .ok pm0 =>
        let pm := pm0.filter (fun r => decide ((95 : ℚ)/100 ≤ r.2.2))
        if pm.isEmpty then .ok []
        else
          let pms := List.insertionSort (fun r s => s.2.2 ≤ r.2.2) pm
          let top := ((pms.head?).map (fun r => r.2.2)).getD 0
          .ok (pms.foldl (fun res r =>
            (projectActivities idx r.2.1).foldl (fun res a =>
              dictSet res (r.2.1, a) (((dictGet res (r.2.1, a)).getD 0) + top)) res) [])

/-- One step of the lexical loop of `search` for the cell `(p, c.1)` with
keyword set `c.2`: the read `results[project][activity]` inserts a 0.0
default when the key is absent (defaultdict auto-vivification); Python then
computes `match_score = prior + len(keywords & query_keywords) /
len(keywords)` — a ZeroDivisionError when the cell's keyword set is empty —
and overwrites the entry with the score rounded to 4 decimals only when the
score is strictly positive. -/
def scoreCell (query_keywords : Finset String) (p : String) (res : Results)
    (c : String × Finset String) : Except String Results :=
  let key := (p, c.1)
  let prior := (dictGet res key).getD 0
  let res1 := if (dictGet res key).isSome then res else res ++ [(key, 0)]
  if c.2.card = 0 then .error divMsg
  else
    let match_score := prior + ((c.2 ∩ query_keywords).card : ℚ) / (c.2.card : ℚ)
    .ok (if 0 < match_score then dictSet res1 key (pyRound4 match_score) else res1)

/-- The inner `for activity, keywords in activities.items()` loop. -/
def cellLoop (query_keywords : Finset String) (p : String) :
    List (String × Finset String) → Results → Except String Results
  | [], res => .ok res
  | c :: rest, res =>
    match scoreCell query_keywords p res c with
    | .error m => .error m
    | .ok res2 => cellLoop query_keywords p rest res2

/-- The outer `for project, activities in self.index.items()` loop. -/
def projLoop (query_keywords : Finset String) :
    KWIndex → Results → Except String Results
  | [], res => .ok res
  | e :: rest, res =>
    match cellLoop query_keywords e.1 e.2 res with
    | .error m => .error m
    | .ok res2 => projLoop query_keywords rest res2

/-- `KeywordSearchIndex.search(query_keywords, title)`: the fuzzy title
prior followed by the lexical scoring loop over every cell of the index. -/
def KeywordSearchIndex.search (pre : String → String) (nn : String → List String)
    (scorer : String → String → ℚ) (idx : KWIndex)
    (query_keywords : Finset String) (title : Option String) :
    Except String Results :=
  match titlePrior pre nn scorer idx title with
  | .error m => .error m
  | .ok res => projLoop query_keywords idx res

/-- `KeywordSearchIndex.save`: each cell's keyword set is serialized as the
sorted list of its members (the JSON array written to disk). -/
def KeywordSearchIndex.save (idx : KWIndex) :
    List (String × List (String × List String)) :=
  idx.map (fun e => (e.1, e.2.map (fun c => (c.1, c.2.sort (· ≤ ·)))))

/-- `KeywordSearchIndex.from_file`: each stored keyword list becomes a set
again (`set(keywords)`); projects and activities keep their stored order. -/
def KeywordSearchIndex.from_file
    (raw : List (String × List (String × List String))) : KWIndex :=
  raw.map (fun e => (e.1, e.2.map (fun c => (c.1, c.2.toFinset))))

/-! ## Score fusion (`Pipeline.run`, source/pipeline.py)

The two per-event score tables (the keyword-search dataframe and the
vector-search dataframe) enter as functions of the event; the fusion step
inner-joins them on `(project, activity)`, sums the scores, and keeps the
first row attaining the maximal sum (`Series.idxmax`). -/

/-- The prediction record merged into the event dict
(`event |= output[0]`). -/
structure Prediction where
  project_description : String
  project_activity : String
  pred_confidence_score_keyword : ℚ
  pred_confidence_score_context : ℚ
  pred_confidence_score : ℚ
deriving DecidableEq

/-- The fused score `match_count + context_score` of one joined row. -/
def fusedScore (r : String × String × ℚ × ℚ) : ℚ := r.2.2.1 + r.2.2.2

/-- Modelled: `pd.merge(left, right, on=["project", "activity"])` (inner
join): for each left row in order, every right row with the same key in
order, carrying both scores. -/
def mergeInner (kw ctx : List (String × String × ℚ)) :
    List (String × String × ℚ × ℚ) :=
  (kw.map (fun l =>
    (ctx.filter (fun r => decide (r.1 = l.1 ∧ r.2.1 = l.2.1))).map
      (fun r => (l.1, l.2.1, l.2.2, r.2.2)))).flatten

/-- Modelled: `Series.idxmax` followed by row selection — the first listed
element attaining the maximal value of `f`, none when the list is empty. -/
def firstMax {α : Type} (f : α → ℚ) : List α → Option α
  | [] => none
  | x :: xs =>
    match firstMax f xs with
    | none => some x
    | some y => if f y ≤ f x then some x else some y

/-- The fusion step of `Pipeline.run` for one event: join the two tables,
compute `match_confidence = match_count + context_score`, select the row at
`idxmax` (an error on an empty join), and rename the columns into the
prediction record. -/
def processEvent (kw ctx : List (String × String × ℚ)) : Except String Prediction :=
  match firstMax fusedScore (mergeInner kw ctx) with
  | none => .error idxmaxMsg
  | some r => .ok ⟨r.1, r.2.1, r.2.2.1, r.2.2.2, r.2.2.1 + r.2.2.2⟩

/-- `Pipeline.run`: the per-event loop over the batch, enriching each event
with its prediction in input order; the first uncaught per-event error
aborts the whole batch, as an uncaught Python exception does. -/
def Pipeline.run {ε : Type} (kwTab ctxTab : ε → List (String × String × ℚ)) :
    List ε → Except String (List (ε × Prediction))
  | [] => .ok []
  | e :: rest =>
    match processEvent (kwTab e) (ctxTab e) with
    | .error m => .error m
    | .ok p =>
      match Pipeline.run kwTab ctxTab rest with
      | .error m => .error m
      | .ok out => .ok ((e, p) :: out)

/-! ## Concrete inputs used by the scenario theorems -/

/-- Two-project index: an "Optimax" project whose keywords overlap the
query, and the "Gasum Loiste" project with no keyword overlap. -/
def idxC2 : KWIndex :=
  [("OPTIMAX APPS&MODELS CZ 2024 WP-12081.04",
      [("Optimax - demo", {"optimax", "demo"})]),
   ("Gasum Loiste", [("Engineering", {"iat", "fat", "sat"})])]

/-- Query keywords extracted from the "Discussing Optimax" event. -/
def queryC2 : Finset String := {"optimax", "discussion", "features"}

/-- TF-IDF neighbour oracle for the scenario: the full project catalog. -/
def nnC2 : String → List String :=
  fun _ => ["OPTIMAX APPS&MODELS CZ 2024 WP-12081.04", "Gasum Loiste"]

/-- Fuzzy scorer for the scenario: every comparison scores 50 of 100, so no
title match reaches the 0.95 confidence gate. -/
def scorerC2 : String → String → ℚ := fun _ _ => 50

/-- One-cell index whose only keyword set is empty. -/
def idxC3 : KWIndex := [("p", [("a", (∅ : Finset String))])]

/-- Two-cell index whose second cell has an empty keyword set. -/
def idxC3w : KWIndex := [("P1", [("A1", {"k"}), ("A2", (∅ : Finset String))])]

/-- Keyword table of the fusion witness event. -/
def kwTabW : Unit → List (String × String × ℚ) := fun _ => [("p", "a", 1), ("p", "b", 2)]

/-- Context table of the fusion witness event. -/
def ctxTabW : Unit → List (String × String × ℚ) := fun _ => [("p", "a", 3), ("p", "b", 1)]

/-- The expected winning prediction of the fusion witness event. -/
def predW : Prediction := ⟨"p", "a", 1, 3, 4⟩

/-- Keyword table sharing no key with `ctxTabD`. -/
def kwTabD : Unit → List (String × String × ℚ) := fun _ => [("p", "a", 1)]

/-- Context table sharing no key with `kwTabD`. -/
def ctxTabD : Unit → List (String × String × ℚ) := fun _ => [("q", "b", 2)]

end ABB

namespace ABB

theorem find?_map_keyed {β γ : Type} (f : β → γ) (key : String → Bool)
    (l : List (String × β)) :
    (l.map (fun x => (x.1, f x.2))).find? (fun x => key x.1)
      = (l.find? (fun x => key x.1)).map (fun x => (x.1, f x.2)) := by
  induction l with
  | nil => rfl
  | cons c rest ih =>
    cases hk : key c.1
    · simp [List.find?_cons, hk, ih]
    · simp [List.find?_cons, hk]

theorem getCell_filter (Q : String → Prop) [DecidablePred Q] (idx : KWIndex) (p a : String) :
    getCell (idx.map (fun e => (e.1, e.2.map (fun c => (c.1, c.2.filter Q))))) p a
      = (getCell idx p a).map (fun s => s.filter Q) := by
  have houter := find?_map_keyed
    (fun acts : List (String × Finset String) => acts.map (fun c => (c.1, c.2.filter Q)))
    (fun s => decide (s = p)) idx
  unfold getCell
  rw [houter]
  cases hfind : idx.find? (fun e => decide (e.1 = p)) with
  | none => rfl
  | some e =>
    have hinner := find?_map_keyed (fun s : Finset String => s.filter Q)
      (fun s => decide (s = a)) e.2
    simp only [Option.map, Option.bind]
    rw [hinner]
    cases e.2.find? (fun c => decide (c.1 = a)) <;> rfl

theorem getCell_prune (idx : KWIndex) (T : Nat) (p a : String) :
    getCell (remove_frequent_keywords_from_index idx T) p a
      = (getCell idx p a).map (fun s => s.filter (fun w => countCells idx w ≤ T)) :=
  getCell_filter (fun w => countCells idx w ≤ T) idx p a

/-- C5: after `remove_frequent_keywords_from_index(T)`, a keyword `w` is in
cell `(p, a)` iff it was in that cell before pruning and the number of cells
of the whole index that contained `w` before pruning is at most `T`. -/
theorem prune_keyword_membership (idx : KWIndex) (T : Nat) (p a w : String) :
    cellHasKeyword (remove_frequent_keywords_from_index idx T) p a w
      ↔ (cellHasKeyword idx p a w ∧ countCells idx w ≤ T) := by
  unfold cellHasKeyword
  rw [getCell_prune]
  cases h : getCell idx p a with
  | none => simp
  | some s =>
    constructor
    · rintro ⟨s', hs', hw⟩
      simp only [Option.map] at hs'
      cases hs'
      rcases Finset.mem_filter.mp hw with ⟨hmem, hcnt⟩
      exact ⟨⟨s, rfl, hmem⟩, hcnt⟩
    · rintro ⟨⟨s', hs', hw⟩, hcnt⟩
      simp only [Option.some.injEq] at hs'
      cases hs'
      exact ⟨s.filter (fun w => countCells idx w ≤ T), rfl,
        Finset.mem_filter.mpr ⟨hw, hcnt⟩⟩

/-- C10: `remove_frequent_keywords_from_index` changes only the per-cell
keyword sets: the project keys and the activity keys under each project are
unchanged (the index stripped of its keyword sets is equal before and
after), and every cell present before pruning is still present after
pruning (a fully pruned cell survives, with an empty keyword set). -/
theorem prune_frame (idx : KWIndex) (T : Nat) :
    ((remove_frequent_keywords_from_index idx T).map (fun e => (e.1, e.2.map Prod.fst))
        = idx.map (fun e => (e.1, e.2.map Prod.fst)))
      ∧ ∀ p a, (getCell (remove_frequent_keywords_from_index idx T) p a).isSome
          = (getCell idx p a).isSome := by
  constructor
  · unfold remove_frequent_keywords_from_index
    rw [List.map_map]
    apply List.map_congr_left
    intro e _
    simp [Function.comp, List.map_map]
  · intro p a
    rw [getCell_prune]
    cases getCell idx p a <;> rfl


theorem faissSearchIP_perm_sorted (xb : List (List ℚ)) (q : List ℚ) :
    (faissSearchIP xb q xb.length).2.Perm (List.range xb.length)
    ∧ (faissSearchIP xb q xb.length).1.Sorted (· ≥ ·) := by
  have hperm := List.perm_insertionSort
    (rankRel (fun i => innerProd (xb.getD i []) q)) (List.range xb.length)
  have hlen : (List.insertionSort (rankRel (fun i => innerProd (xb.getD i []) q))
      (List.range xb.length)).length = xb.length :=
    hperm.length_eq.trans (List.length_range _)
  have htake : (List.insertionSort (rankRel (fun i => innerProd (xb.getD i []) q))
        (List.range xb.length)).take xb.length
      = List.insertionSort (rankRel (fun i => innerProd (xb.getD i []) q))
        (List.range xb.length) :=
    List.take_of_length_le (le_of_eq hlen)
  constructor
  · show ((List.insertionSort (rankRel (fun i => innerProd (xb.getD i []) q))
      (List.range xb.length)).take xb.length).Perm (List.range xb.length)
    rw [htake]
    exact hperm
  · show (((List.insertionSort (rankRel (fun i => innerProd (xb.getD i []) q))
      (List.range xb.length)).take xb.length).map
        (fun i => innerProd (xb.getD i []) q)).Sorted (· ≥ ·)
    rw [htake]
    have hsorted := List.sorted_insertionSort
      (rankRel (fun i => innerProd (xb.getD i []) q)) (List.range xb.length)
    refine List.Pairwise.map _ ?_ hsorted
    intro i j hij
    rcases hij with hlt | ⟨heq, _⟩
    · exact le_of_lt hlt
    · exact ge_of_eq heq

/-- C6(amended): with `k` explicitly `None` (as the pipeline and
`FaissIndex.search` pass it), `search_by_vector_query` on an index whose
store and label list agree in size returns the full ranked catalog: the
returned item ids are a permutation of all stored item ids, there is one
label per stored item, and the returned scores are ranked by inner-product
similarity (non-increasing). With `k` omitted the Python default is
`k = 5`, not the full catalog. -/
theorem search_by_vector_query_none_full (idx : FaissIndex) (q : List ℚ)
    (h : idx.index.length = idx.index_items.length) :
    (idx.search_by_vector_query q none).2.1.Perm (List.range idx.index.length)
    ∧ (idx.search_by_vector_query q none).2.2.length = idx.index_items.length
    ∧ (idx.search_by_vector_query q none).1.Sorted (· ≥ ·) := by
  have hids : (idx.search_by_vector_query q none).2.1
      = (faissSearchIP idx.index q idx.index.length).2 := by
    show (faissSearchIP idx.index q idx.index_items.length).2
      = (faissSearchIP idx.index q idx.index.length).2
    rw [h]
  have hd : (idx.search_by_vector_query q none).1
      = (faissSearchIP idx.index q idx.index.length).1 := by
    show (faissSearchIP idx.index q idx.index_items.length).1
      = (faissSearchIP idx.index q idx.index.length).1
    rw [h]
  have hlab : (idx.search_by_vector_query q none).2.2
      = (idx.search_by_vector_query q none).2.1.map
          (fun i => idx.index_items.getD i "") := rfl
  obtain ⟨hperm, hsort⟩ := faissSearchIP_perm_sorted idx.index q
  refine ⟨?_, ?_, ?_⟩
  · rw [hids]; exact hperm
  · rw [hlab, List.length_map, hids, hperm.length_eq, List.length_range, h]
  · rw [hd]; exact hsort

/-- C6(amended) witness at a concrete two-item index. -/
theorem search_by_vector_query_none_full_witness :
    (idxW6.search_by_vector_query [1] none).2.1.Perm (List.range idxW6.index.length)
    ∧ (idxW6.search_by_vector_query [1] none).2.2.length = idxW6.index_items.length
    ∧ (idxW6.search_by_vector_query [1] none).1.Sorted (· ≥ ·) :=
  search_by_vector_query_none_full idxW6 [1] rfl

/-- C6 counterexample: on a six-item index, calling the vector search with
the `k` argument omitted returns five results, not one per stored item. -/
theorem search_by_vector_query_default_top5 :
    (idxC6.search_by_vector_query_default [1]).2.2.length = 5
    ∧ idxC6.index_items.length = 6 := by
  refine ⟨?_, rfl⟩
  norm_num [FaissIndex.search_by_vector_query_default, FaissIndex.search_by_vector_query,
    idxC6, faissSearchIP, innerProd, List.insertionSort, List.orderedInsert, rankRel,
    List.getD, List.zip, List.zipWith, List.sum, List.range, List.range.loop, List.foldr]

/-- C7(amended): neither `FaissIndex.from_file` nor
`FaissIndex.set_embeddings` validates that the vector count and the label
count agree; a mismatched pair is accepted silently, and a full-catalog
search (`k = None`) of an index loaded with fewer labels than vectors
returns only `len(labels)` rows, silently dropping stored vectors. -/
theorem from_file_no_validation (v : List (List ℚ)) (labels : List String) (q : List ℚ)
    (h : labels.length ≤ v.length) :
    (FaissIndex.from_file v labels).index = v
    ∧ (FaissIndex.from_file v labels).index_items = labels
    ∧ (∀ prior : FaissIndex, FaissIndex.set_embeddings prior v labels = ⟨v, labels⟩)
    ∧ ((FaissIndex.from_file v labels).search_by_vector_query q none).2.1.length
        = labels.length := by
  refine ⟨rfl, rfl, fun _ => rfl, ?_⟩
  have hids : ((FaissIndex.from_file v labels).search_by_vector_query q none).2.1
      = (List.insertionSort (rankRel (fun i => innerProd (v.getD i []) q))
          (List.range v.length)).take labels.length := rfl
  have hlen : (List.insertionSort (rankRel (fun i => innerProd (v.getD i []) q))
      (List.range v.length)).length = v.length :=
    (List.perm_insertionSort _ _).length_eq.trans (List.length_range _)
  rw [hids, List.length_take, hlen]
  exact Nat.min_eq_left h

/-- C7(amended) witness: two stored vectors, one sidecar label. -/
theorem from_file_no_validation_witness :
    (FaissIndex.from_file [[1], [2]] ["a"]).index = [[1], [2]]
    ∧ (FaissIndex.from_file [[1], [2]] ["a"]).index_items = ["a"]
    ∧ (∀ prior : FaissIndex,
        FaissIndex.set_embeddings prior [[1], [2]] ["a"] = ⟨[[1], [2]], ["a"]⟩)
    ∧ ((FaissIndex.from_file [[1], [2]] ["a"]).search_by_vector_query [1] none).2.1.length
        = (["a"] : List String).length :=
  from_file_no_validation [[1], [2]] ["a"] [1] (by decide)

/-- C7 counterexample: a persisted store with two vectors and a sidecar with
one label loads without any error, and `set_embeddings` likewise accepts a
two-vector, one-label call; no validation failure occurs. -/
theorem set_embeddings_accepts_mismatch :
    (FaissIndex.set_embeddings ⟨[], []⟩ [[1], [2]] ["a"]).index.length = 2
    ∧ (FaissIndex.set_embeddings ⟨[], []⟩ [[1], [2]] ["a"]).index_items.length = 1
    ∧ (FaissIndex.from_file [[1], [2]] ["a"]).index.length = 2
    ∧ (FaissIndex.from_file [[1], [2]] ["a"]).index_items.length = 1 := by decide

theorem sortedCell_roundtrip (acts : List (String × Finset String)) :
    (acts.map (fun c => (c.1, c.2.sort (· ≤ ·)))).map (fun c => (c.1, c.2.toFinset))
      = acts := by
  induction acts with
  | nil => rfl
  | cons c rest ih =>
    simp only [List.map_cons, List.cons.injEq]
    exact ⟨Prod.ext rfl (Finset.sort_toFinset _ _), ih⟩

theorem kw_save_load_roundtrip (idx : KWIndex) :
    KeywordSearchIndex.from_file (KeywordSearchIndex.save idx) = idx := by
  unfold KeywordSearchIndex.from_file KeywordSearchIndex.save
  induction idx with
  | nil => rfl
  | cons e rest ih =>
    simp only [List.map_cons, List.cons.injEq]
    exact ⟨Prod.ext rfl (sortedCell_roundtrip e.2), ih⟩

/-- C8: saving a keyword index and loading it back yields an index that
produces identical search results for every query, title and every
instantiation of the external fuzzy-matching collaborators; the
sorted-list serialization of the keyword sets loses no information. -/
theorem search_after_save_load (pre : String → String) (nn : String → List String)
    (scorer : String → String → ℚ) (idx : KWIndex) (q : Finset String)
    (title : Option String) :
    KeywordSearchIndex.search pre nn scorer
        (KeywordSearchIndex.from_file (KeywordSearchIndex.save idx)) q title
      = KeywordSearchIndex.search pre nn scorer idx q title := by
  rw [kw_save_load_roundtrip]

/-- C9(amended): for every query list, `fuzzy_nn_match` with an empty
candidate catalog fails with the scikit-learn fitting error (raised while
building the TF-IDF vectorizer / nearest-neighbour index over zero
samples); it does not return an empty matching table. -/
theorem fuzzy_nn_match_empty_catalog_raises (pre : String → String)
    (nn : String → List String) (scorer : String → String → ℚ)
    (messy : List String) (n_neighbors limit : Nat) :
    fuzzy_nn_match pre nn scorer messy [] n_neighbors limit
      = .error sklearnEmptyMsg := rfl

/-- C9 counterexample: a concrete query against a zero-string catalog makes
`fuzzy_nn_match` raise instead of returning zero matches. -/
theorem fuzzy_nn_match_empty_catalog_cx :
    fuzzy_nn_match id (fun _ => []) (fun _ _ => 0) ["Discussing Optimax"] [] 100 5
      = .error sklearnEmptyMsg := rfl

theorem scoreCell_empty (q : Finset String) (p : String) (res : Results)
    (c : String × Finset String) (hc : c.2 = (∅ : Finset String)) :
    scoreCell q p res c = .error divMsg := by
  unfold scoreCell
  simp [hc]

theorem scoreCell_ok_of_nonempty (q : Finset String) (p : String) (res : Results)
    (c : String × Finset String) (hc : c.2.card ≠ 0) :
    ∃ r, scoreCell q p res c = .ok r := by
  unfold scoreCell
  simp only [hc, if_false]
  exact ⟨_, rfl⟩

theorem cellLoop_error (q : Finset String) (p : String)
    (acts : List (String × Finset String))
    (hex : ∃ c ∈ acts, c.2 = (∅ : Finset String)) :
    ∀ res, cellLoop q p acts res = .error divMsg := by
  induction acts with
  | nil =>
    rcases hex with ⟨c, hc, _⟩
    exact absurd hc (List.not_mem_nil c)
  | cons c rest ih =>
    intro res
    by_cases hcard : c.2.card = 0
    · have hce : c.2 = (∅ : Finset String) := Finset.card_eq_zero.mp hcard
      simp [cellLoop, scoreCell_empty q p res c hce]
    · obtain ⟨r2, hr2⟩ := scoreCell_ok_of_nonempty q p res c hcard
      rcases hex with ⟨c', hc', hce'⟩
      have hc'rest : c' ∈ rest := by
        rcases List.mem_cons.mp hc' with h | h
        · exfalso
          exact hcard (by rw [← h, hce']; exact Finset.card_empty)
        · exact h
      simp only [cellLoop, hr2]
      exact ih ⟨c', hc'rest, hce'⟩ r2

theorem cellLoop_ok_or_error (q : Finset String) (p : String)
    (acts : List (String × Finset String)) :
    ∀ res, (∃ r, cellLoop q p acts res = .ok r)
      ∨ cellLoop q p acts res = .error divMsg := by
  induction acts with
  | nil => exact fun res => Or.inl ⟨res, rfl⟩
  | cons c rest ih =>
    intro res
    by_cases hcard : c.2.card = 0
    · right
      simp [cellLoop, scoreCell_empty q p res c (Finset.card_eq_zero.mp hcard)]
    · obtain ⟨r2, hr2⟩ := scoreCell_ok_of_nonempty q p res c hcard
      simp only [cellLoop, hr2]
      exact ih r2

theorem projLoop_error (q : Finset String) (idx : KWIndex)
    (hex : ∃ e ∈ idx, ∃ c ∈ e.2, c.2 = (∅ : Finset String)) :
    ∀ res, projLoop q idx res = .error divMsg := by
  induction idx with
  | nil =>
    rcases hex with ⟨e, he, _⟩
    exact absurd he (List.not_mem_nil e)
  | cons e rest ih =>
    intro res
    rcases hex with ⟨e', he', c', hc', hce'⟩
    rcases List.mem_cons.mp he' with he | he
    · have herr := cellLoop_error q e.1 e.2 ⟨c', he ▸ hc', hce'⟩ res
      simp [projLoop, herr]
    · rcases cellLoop_ok_or_error q e.1 e.2 res with ⟨r2, hr2⟩ | herr
      · simp only [projLoop, hr2]
        exact ih ⟨e', he, c', hc', hce'⟩ r2
      · simp [projLoop, herr]

theorem titlePrior_ok (pre : String → String) (nn : String → List String)
    (scorer : String → String → ℚ) (idx : KWIndex) (title : Option String)
    (hne : idx ≠ []) :
    ∃ r, titlePrior pre nn scorer idx title = .ok r := by
  cases title with
  | none => exact ⟨[], rfl⟩
  | some t =>
    by_cases ht : t = ""
    · exact ⟨[], by simp [titlePrior, ht]⟩
    · have h1 : ((idx.map Prod.fst).map pre).isEmpty = false := by
        cases idx with
        | nil => exact absurd rfl hne
        | cons e rest => rfl
      have hfz : fuzzy_nn_match pre nn scorer [t] (idx.map Prod.fst) 5 1
          = .ok (((([t].map pre).zip (([t].map pre).map nn)).map
              (fun c => find_matches_fuzzy scorer c.1 c.2 1)).flatten.map (fun r =>
            (mapBack (([t].map pre).zip [t]) r.1,
             mapBack (((idx.map Prod.fst).map pre).zip (idx.map Prod.fst)) r.2.1,
             r.2.2 / 100))) := by
        unfold fuzzy_nn_match tfidf_nn init_matching_components
        rw [h1]
        rfl
      simp only [titlePrior]
      rw [if_neg ht, hfz]
      dsimp only
      split
      · exact ⟨[], rfl⟩
      · exact ⟨_, rfl⟩

/-- C3(amended): for every keyword index containing a `(project, activity)`
cell whose keyword set is empty, `KeywordSearchIndex.search` on any query
and title fails with a ZeroDivisionError: the division by the cell's
keyword-set size is reachable, and the empty cell is not treated as a score
contribution of 0. -/
theorem search_empty_cell_raises (pre : String → String) (nn : String → List String)
    (scorer : String → String → ℚ) (idx : KWIndex) (q : Finset String)
    (title : Option String) (p a : String) (acts : List (String × Finset String))
    (hp : (p, acts) ∈ idx) (ha : (a, (∅ : Finset String)) ∈ acts) :
    KeywordSearchIndex.search pre nn scorer idx q title = .error divMsg := by
  have hne : idx ≠ [] := by
    rintro rfl
    exact absurd hp (List.not_mem_nil _)
  obtain ⟨r, hr⟩ := titlePrior_ok pre nn scorer idx title hne
  unfold KeywordSearchIndex.search
  rw [hr]
  exact projLoop_error q idx ⟨(p, acts), hp, (a, ∅), ha, rfl⟩ r

/-- C3(amended) witness: a two-cell index whose second cell is empty makes
the search raise, with a non-empty title exercising the title branch. -/
theorem search_empty_cell_raises_witness :
    KeywordSearchIndex.search id (fun _ => []) (fun _ _ => 0) idxC3w ∅ (some "t")
      = .error divMsg :=
  search_empty_cell_raises id (fun _ => []) (fun _ _ => 0) idxC3w ∅ (some "t")
    "P1" "A2" [("A1", {"k"}), ("A2", ∅)] (by simp [idxC3w]) (by simp)

/-- C3 counterexample: on the one-cell index whose keyword set is empty,
`search` raises a ZeroDivisionError instead of treating the cell as a score
contribution of 0 — the division is reachable as an error. -/
theorem search_empty_cell_cx :
    KeywordSearchIndex.search id (fun _ => []) (fun _ _ => 0) idxC3 ∅ none
      = .error divMsg := rfl


/-- C2: evaluation of `KeywordSearchIndex.search` at the two-project
scenario (an "Optimax" project matching the query, "Gasum Loiste" with no
keyword overlap and no title match above the 0.95 gate): the returned
mapping contains the "Gasum Loiste" cell with score 0 — the defaultdict
read inside the scoring loop inserts a 0.0 entry for every cell, so the
result is not restricted to cells with score strictly greater than 0. -/
theorem search_emits_zero_score_cell :
    KeywordSearchIndex.search id nnC2 scorerC2 idxC2 queryC2 (some "Discussing Optimax")
      = .ok [(("OPTIMAX APPS&MODELS CZ 2024 WP-12081.04", "Optimax - demo"), 1/2),
             (("Gasum Loiste", "Engineering"), 0)] := by
  have hfz : fuzzy_nn_match id nnC2 scorerC2 ["Discussing Optimax"]
      (idxC2.map Prod.fst) 5 1
      = .ok [("Discussing Optimax", "OPTIMAX APPS&MODELS CZ 2024 WP-12081.04",
          50/100)] := rfl
  have hlt : ¬ ((95 : ℚ)/100 ≤ 50/100) := by norm_num
  have htp : titlePrior id nnC2 scorerC2 idxC2 (some "Discussing Optimax")
      = .ok [] := by
    simp [titlePrior, hfz, hlt]
  have hc1 : ((({"optimax", "demo"} : Finset String)) ∩ queryC2).card = 1 := rfl
  have hc2 : ((({"iat", "fat", "sat"} : Finset String)) ∩ queryC2).card = 0 := rfl
  have hc3 : (({"optimax", "demo"} : Finset String)).card = 2 := rfl
  have hc4 : (({"iat", "fat", "sat"} : Finset String)).card = 3 := rfl
  have h1 : scoreCell queryC2 "OPTIMAX APPS&MODELS CZ 2024 WP-12081.04" []
      ("Optimax - demo", {"optimax", "demo"})
      = .ok [(("OPTIMAX APPS&MODELS CZ 2024 WP-12081.04", "Optimax - demo"), 1/2)] := by
    norm_num [scoreCell, dictGet, dictSet, pyRound4, hc1, hc3,
      List.find?_cons, List.find?_nil]
  have hg2 : dictGet
      [(("OPTIMAX APPS&MODELS CZ 2024 WP-12081.04", "Optimax - demo"), (1 : ℚ)/2)]
      ("Gasum Loiste", "Engineering") = none := rfl
  have h2 : scoreCell queryC2 "Gasum Loiste"
      [(("OPTIMAX APPS&MODELS CZ 2024 WP-12081.04", "Optimax - demo"), 1/2)]
      ("Engineering", {"iat", "fat", "sat"})
      = .ok [(("OPTIMAX APPS&MODELS CZ 2024 WP-12081.04", "Optimax - demo"), 1/2),
             (("Gasum Loiste", "Engineering"), 0)] := by
    unfold scoreCell
    dsimp only
    rw [hg2]
    norm_num [hc2, hc4]
  unfold KeywordSearchIndex.search
  rw [htp]
  show projLoop queryC2 idxC2 [] = _
  simp only [idxC2, projLoop, cellLoop, h1, h2]


theorem firstMax_eq_none {α : Type} (f : α → ℚ) (l : List α)
    (h : firstMax f l = none) : l = [] := by
  cases l with
  | nil => rfl
  | cons x xs =>
    exfalso
    unfold firstMax at h
    cases hx : firstMax f xs with
    | none =>
      rw [hx] at h
      simp at h
    | some y =>
      rw [hx] at h
      by_cases hle : f y ≤ f x
      · simp [hle] at h
      · simp [hle] at h

theorem firstMax_spec {α : Type} (f : α → ℚ) (l : List α) (r : α)
    (h : firstMax f l = some r) :
    ∃ i : ℕ, l[i]? = some r
      ∧ (∀ (j : ℕ) (r2 : α), l[j]? = some r2 → f r2 ≤ f r)
      ∧ (∀ (j : ℕ) (r2 : α), l[j]? = some r2 → f r = f r2 → i ≤ j) := by
  induction l generalizing r with
  | nil => exact absurd h (by simp [firstMax])
  | cons x xs ih =>
    unfold firstMax at h
    cases hx : firstMax f xs with
    | none =>
      rw [hx] at h
      obtain rfl := Option.some.inj h
      have hxs : xs = [] := firstMax_eq_none f xs hx
      subst hxs
      refine ⟨0, by simp, ?_, ?_⟩
      · intro j r2 hj
        cases j with
        | zero =>
          rw [List.getElem?_cons_zero] at hj
          obtain rfl := Option.some.inj hj
          exact le_refl _
        | succ n => simp at hj
      · intro j r2 hj hf
        exact Nat.zero_le j
    | some y =>
      rw [hx] at h
      dsimp only at h
      obtain ⟨i, hi, hmax, hfirst⟩ := ih y hx
      by_cases hle : f y ≤ f x
      · rw [if_pos hle] at h
        obtain rfl := Option.some.inj h
        refine ⟨0, by simp, ?_, ?_⟩
        · intro j r2 hj
          cases j with
          | zero =>
            rw [List.getElem?_cons_zero] at hj
            obtain rfl := Option.some.inj hj
            exact le_refl _
          | succ n =>
            rw [List.getElem?_cons_succ] at hj
            exact le_trans (hmax n r2 hj) hle
        · intro j r2 hj hf
          exact Nat.zero_le j
      · rw [if_neg hle] at h
        obtain rfl := Option.some.inj h
        push_neg at hle
        refine ⟨i + 1, ?_, ?_, ?_⟩
        · rw [List.getElem?_cons_succ]
          exact hi
        · intro j r2 hj
          cases j with
          | zero =>
            rw [List.getElem?_cons_zero] at hj
            obtain rfl := Option.some.inj hj
            exact le_of_lt hle
          | succ n =>
            rw [List.getElem?_cons_succ] at hj
            exact hmax n r2 hj
        · intro j r2 hj hf
          cases j with
          | zero =>
            rw [List.getElem?_cons_zero] at hj
            obtain rfl := Option.some.inj hj
            exact absurd hf (ne_of_gt hle)
          | succ n =>
            rw [List.getElem?_cons_succ] at hj
            exact Nat.succ_le_succ (hfirst n r2 hj hf)

/-- C1: for every event of a batch that `Pipeline.run` completes, the
prediction attached to the event is a row of the inner join of the
keyword-search table and the vector-search table on `(project, activity)`,
its fused score equals its keyword score plus its vector score, that fused
score is the maximum of `keyword_score + vector_score` over all joined
candidates for the event, and ties are broken by the first-seen join row. -/
theorem run_prediction_spec {ε : Type} (kwTab ctxTab : ε → List (String × String × ℚ))
    (events : List ε) (out : List (ε × Prediction))
    (hrun : Pipeline.run kwTab ctxTab events = .ok out)
    (e : ε) (p : Prediction) (hmem : (e, p) ∈ out) :
    ∃ (i : ℕ) (r : String × String × ℚ × ℚ),
      (mergeInner (kwTab e) (ctxTab e))[i]? = some r
      ∧ p = ⟨r.1, r.2.1, r.2.2.1, r.2.2.2, r.2.2.1 + r.2.2.2⟩
      ∧ p.pred_confidence_score
          = p.pred_confidence_score_keyword + p.pred_confidence_score_context
      ∧ (∀ (j : ℕ) (r2 : String × String × ℚ × ℚ),
          (mergeInner (kwTab e) (ctxTab e))[j]? = some r2
          → fusedScore r2 ≤ fusedScore r)
      ∧ (∀ (j : ℕ) (r2 : String × String × ℚ × ℚ),
          (mergeInner (kwTab e) (ctxTab e))[j]? = some r2
          → fusedScore r = fusedScore r2 → i ≤ j) := by
  induction events generalizing out with
  | nil =>
    unfold Pipeline.run at hrun
    injection hrun with hout
    subst hout
    exact absurd hmem (List.not_mem_nil _)
  | cons e0 rest ih =>
    unfold Pipeline.run at hrun
    cases hpe : processEvent (kwTab e0) (ctxTab e0) with
    | error m =>
      rw [hpe] at hrun
      exact Except.noConfusion hrun
    | ok p0 =>
      rw [hpe] at hrun
      cases hrest : Pipeline.run kwTab ctxTab rest with
      | error m =>
        rw [hrest] at hrun
        exact Except.noConfusion hrun
      | ok out2 =>
        rw [hrest] at hrun
        injection hrun with hout
        subst hout
        rcases List.mem_cons.mp hmem with hep | hep
        · have he : e = e0 := congrArg Prod.fst hep
          have hp : p = p0 := congrArg Prod.snd hep
          subst he
          subst hp
          unfold processEvent at hpe
          cases hfm : firstMax fusedScore (mergeInner (kwTab e) (ctxTab e)) with
          | none =>
            rw [hfm] at hpe
            exact Except.noConfusion hpe
          | some r =>
            rw [hfm] at hpe
            injection hpe with hp0
            subst hp0
            obtain ⟨i, hi, hmax, hfirst⟩ := firstMax_spec fusedScore _ r hfm
            exact ⟨i, r, hi, rfl, rfl, hmax, hfirst⟩
        · exact ih out2 hrest hep

/-- C1 witness: a one-event batch with two joined candidates; the selected
prediction is the maximal-fusion row. -/
theorem run_prediction_spec_witness :
    ∃ (i : ℕ) (r : String × String × ℚ × ℚ),
      (mergeInner (kwTabW ()) (ctxTabW ()))[i]? = some r
      ∧ predW = ⟨r.1, r.2.1, r.2.2.1, r.2.2.2, r.2.2.1 + r.2.2.2⟩
      ∧ predW.pred_confidence_score
          = predW.pred_confidence_score_keyword + predW.pred_confidence_score_context
      ∧ (∀ (j : ℕ) (r2 : String × String × ℚ × ℚ),
          (mergeInner (kwTabW ()) (ctxTabW ()))[j]? = some r2
          → fusedScore r2 ≤ fusedScore r)
      ∧ (∀ (j : ℕ) (r2 : String × String × ℚ × ℚ),
          (mergeInner (kwTabW ()) (ctxTabW ()))[j]? = some r2
          → fusedScore r = fusedScore r2 → i ≤ j) := by
  have hrun : Pipeline.run kwTabW ctxTabW [()] = .ok [((), predW)] := by
    norm_num [Pipeline.run, processEvent, firstMax, mergeInner, fusedScore,
      kwTabW, ctxTabW, predW, List.filter_cons, List.filter_nil,
      Prediction.mk.injEq]
  exact run_prediction_spec kwTabW ctxTabW [()] [((), predW)] hrun () predW
    (by simp)

/-- C4(amended): an event whose keyword-search table and vector-search
table share no `(project, activity)` row gives the event no prediction and
makes the whole batch fail: `idxmax` on the empty joined table raises, the
error propagates, and `Pipeline.run` returns an error for the entire batch
instead of an explicit per-event "unclassified" outcome. -/
theorem run_empty_join_aborts {ε : Type} (kwTab ctxTab : ε → List (String × String × ℚ))
    (events : List ε) (e : ε) (he : e ∈ events)
    (hmerge : mergeInner (kwTab e) (ctxTab e) = []) :
    ∃ m, Pipeline.run kwTab ctxTab events = .error m := by
  induction events with
  | nil => exact absurd he (List.not_mem_nil e)
  | cons e0 rest ih =>
    cases hpe : processEvent (kwTab e0) (ctxTab e0) with
    | error m =>
      refine ⟨m, ?_⟩
      unfold Pipeline.run
      rw [hpe]
    | ok p =>
      rcases List.mem_cons.mp he with he0 | he0
      · exfalso
        subst he0
        unfold processEvent at hpe
        rw [hmerge] at hpe
        exact Except.noConfusion hpe
      · obtain ⟨m, hm⟩ := ih he0
        refine ⟨m, ?_⟩
        unfold Pipeline.run
        rw [hpe, hm]

/-- C4(amended) witness: a one-event batch whose two tables share no key
ends in a batch-level error. -/
theorem run_empty_join_aborts_witness :
    ∃ m, Pipeline.run kwTabD ctxTabD [()] = .error m :=
  run_empty_join_aborts kwTabD ctxTabD [()] () (by simp) rfl

/-- C4 counterexample: with disjoint tables for its only event, the batch
run returns the `idxmax` error — the event is not surfaced as an
"unclassified" outcome and the batch aborts. -/
theorem run_empty_join_aborts_batch_cx :
    Pipeline.run (fun _ : Unit => [("x", "y", (5 : ℚ))])
      (fun _ => [("u", "v", (7 : ℚ))]) [()] = .error idxmaxMsg := rfl

end ABB
